import Mathlib

/-!
# Verification of the safesearch binary-search library

A shallow embedding of `safesearch.c` / `safesearch.h`: three bounds-search
primitives (`lower_bound_i32`, `upper_bound_i32`, `binary_search_i32`) over a
caller-supplied array of 32-bit signed integers, together with the linear-scan
oracle functions of the test harness (`linear_lower_bound`,
`linear_upper_bound`).

Modelling choices:
* The `const int32_t *` array pointer is an `Option (List Int)`; `none` is the
  NULL pointer.  The length argument `n : Nat` is passed separately, exactly as
  in C.  An array read `a[i]` is `readArr a i`, which returns `0` out of range
  (the theorems show in-range accesses only, so the default is never consulted
  on the executions the claims talk about).
* Element values are `Int` (the code only compares elements, so the behaviour
  on `int32_t` is the restriction of the behaviour on `Int`).
* `size_t` index arithmetic is `Nat`.  The loop only ever computes
  `first + len / 2` with `first + len ≤ n`, so no expression exceeds `n`; the
  overflow-safety claim is phrased as a bound on every computed midpoint.
* Both search functions share one loop shape, differing only in the branch
  comparison; the loop is factored as `strideLoop` over the branch predicate.
  `strideTrace` is the same loop recording every index `mid` at which the loop
  reads `a[mid]`, used for the memory-safety and step-count claims.
-/

namespace SafeSearch

/-- `status_t` from safesearch.h. -/
inductive status_t where
  | OK_FOUND
  | OK_NOT_FOUND
  | ERR_NULL_PTR
  | ERR_BAD_LEN
deriving DecidableEq, Repr

/-- `search_result_t` from safesearch.h: a status and an index. -/
structure search_result_t where
  status : status_t
  index : Nat
deriving DecidableEq, Repr

/-- An array read `a[i]`.  `none` models the NULL pointer; reads past the end
of the list return a junk value `0` (the C program never performs such reads
on the runs described by the claims, as proved below). -/
def readArr (a : Option (List Int)) (i : Nat) : Int :=
  (a.getD []).getD i 0

/-- The stride-halving loop shared verbatim by `lower_bound_i32` and
`upper_bound_i32` in safesearch.c:

    while (len > 0) {
      half = len >> 1;
      mid  = first + half;
      if (p(mid)) { first = mid + 1; len = len - half - 1; }
      else        { len = half; }
    }
    return first;

where `p(mid)` is `a[mid] < key` for the lower bound and `a[mid] <= key`
for the upper bound. -/
def strideLoop (p : Nat → Bool) (first len : Nat) : Nat :=
  if h : len = 0 then first
  else if p (first + len / 2) then
    strideLoop p (first + len / 2 + 1) (len - len / 2 - 1)
  else
    strideLoop p first (len / 2)
termination_by len
decreasing_by
  all_goals omega

/-- The same loop as `strideLoop`, recording the index `mid` of every array
read `a[mid]` the loop performs, in order. -/
def strideTrace (p : Nat → Bool) (first len : Nat) : List Nat :=
  if h : len = 0 then []
  else if p (first + len / 2) then
    (first + len / 2) :: strideTrace p (first + len / 2 + 1) (len - len / 2 - 1)
  else
    (first + len / 2) :: strideTrace p first (len / 2)
termination_by len
decreasing_by
  all_goals omega

/-- `lower_bound_i32` from safesearch.c: first position `i` with `a[i] >= key`.
Returns `ERR_NULL_PTR` when the pointer is NULL and `n > 0`; otherwise runs the
stride loop with branch predicate `a[mid] < key` and returns `OK_NOT_FOUND`
with the final `first`. -/
def lower_bound_i32 (a : Option (List Int)) (n : Nat) (key : Int) : search_result_t :=
  if a = none ∧ 0 < n then ⟨.ERR_NULL_PTR, 0⟩
  else ⟨.OK_NOT_FOUND, strideLoop (fun mid => decide (readArr a mid < key)) 0 n⟩

/-- `upper_bound_i32` from safesearch.c: first position `i` with `a[i] > key`.
Identical to `lower_bound_i32` except the branch comparison is
`a[mid] <= key`. -/
def upper_bound_i32 (a : Option (List Int)) (n : Nat) (key : Int) : search_result_t :=
  if a = none ∧ 0 < n then ⟨.ERR_NULL_PTR, 0⟩
  else ⟨.OK_NOT_FOUND, strideLoop (fun mid => decide (readArr a mid ≤ key)) 0 n⟩

/-- `binary_search_i32` from safesearch.c: calls `lower_bound_i32`, propagates
any non-OK status unchanged, then checks `lb.index < n && a != NULL &&
a[lb.index] == key` to decide between `OK_FOUND` and `OK_NOT_FOUND`. -/
def binary_search_i32 (a : Option (List Int)) (n : Nat) (key : Int) : search_result_t :=
  let lb := lower_bound_i32 a n key
  if lb.status ≠ .OK_NOT_FOUND ∧ lb.status ≠ .OK_FOUND then lb
  else if lb.index < n ∧ a ≠ none ∧ readArr a lb.index = key then
    ⟨.OK_FOUND, lb.index⟩
  else
    ⟨.OK_NOT_FOUND, lb.index⟩

/-- The indices of the array reads `a[mid]` performed by `lower_bound_i32` on
the given input (empty when the precondition check fails and no read
happens). -/
def lower_bound_accesses (a : Option (List Int)) (n : Nat) (key : Int) : List Nat :=
  if a = none ∧ 0 < n then []
  else strideTrace (fun mid => decide (readArr a mid < key)) 0 n

/-- The indices of the array reads `a[mid]` performed by `upper_bound_i32` on
the given input. -/
def upper_bound_accesses (a : Option (List Int)) (n : Nat) (key : Int) : List Nat :=
  if a = none ∧ 0 < n then []
  else strideTrace (fun mid => decide (readArr a mid ≤ key)) 0 n

/-- The early-return linear scan shared by `linear_lower_bound` and
`linear_upper_bound` in the test harness:

    for (j = i; j < i + fuel; ++j) if (q(j)) return j;
    return i + fuel;
-/
def lscan (q : Nat → Bool) (i fuel : Nat) : Nat :=
  match fuel with
  | 0 => i
  | fuel + 1 => if q i then i else lscan q (i + 1) fuel

/-- `linear_lower_bound` from the test harness in safesearch.c: scan
`i = 0, 1, ...` and return the first `i < n` with `a[i] >= key`, else `n`. -/
def linear_lower_bound (a : List Int) (n : Nat) (key : Int) : Nat :=
  lscan (fun i => decide (key ≤ a.getD i 0)) 0 n

/-- `linear_upper_bound` from the test harness in safesearch.c: scan
`i = 0, 1, ...` and return the first `i < n` with `a[i] > key`, else `n`. -/
def linear_upper_bound (a : List Int) (n : Nat) (key : Int) : Nat :=
  lscan (fun i => decide (key < a.getD i 0)) 0 n

example : lower_bound_i32 (some [1, 3, 3, 7]) 4 3 = ⟨.OK_NOT_FOUND, 1⟩ := by
  simp [lower_bound_i32, strideLoop, readArr]
example : upper_bound_i32 (some [1, 3, 3, 7]) 4 3 = ⟨.OK_NOT_FOUND, 3⟩ := by
  simp [upper_bound_i32, strideLoop, readArr]
example : binary_search_i32 (some [1, 3, 3, 7]) 4 3 = ⟨.OK_FOUND, 1⟩ := by
  simp [binary_search_i32, lower_bound_i32, strideLoop, readArr]
example : binary_search_i32 (some [1, 3, 3, 7]) 4 4 = ⟨.OK_NOT_FOUND, 3⟩ := by
  simp [binary_search_i32, lower_bound_i32, strideLoop, readArr]
example : lower_bound_i32 none 10 5 = ⟨.ERR_NULL_PTR, 0⟩ := by
  simp [lower_bound_i32]
example : lower_bound_i32 none 0 5 = ⟨.OK_NOT_FOUND, 0⟩ := by
  simp [lower_bound_i32, strideLoop]
example : binary_search_i32 none 10 5 = ⟨.ERR_NULL_PTR, 0⟩ := by
  simp [binary_search_i32, lower_bound_i32]
example : linear_lower_bound [1, 3, 3, 7] 4 3 = 1 := by decide
example : linear_upper_bound [1, 3, 3, 7] 4 3 = 3 := by decide
example : lower_bound_accesses (some [1, 3, 3, 7]) 4 3 = [2, 1, 0] := by
  simp [lower_bound_accesses, strideTrace, readArr]

/-!
## Generic facts about the stride-halving loop
-/

/-- The loop's answer stays inside the initial window `[first, first + len]`. -/
theorem strideLoop_bounds (p : Nat → Bool) (len : Nat) :
    ∀ first, first ≤ strideLoop p first len ∧ strideLoop p first len ≤ first + len := by
  induction' len using Nat.strong_induction_on with len ih
  intro first
  rw [strideLoop]
  by_cases h0 : len = 0
  · rw [dif_pos h0]
    omega
  · rw [dif_neg h0]
    by_cases hp : p (first + len / 2) = true
    · rw [if_pos hp]
      have := ih (len - len / 2 - 1) (by omega) (first + len / 2 + 1)
      omega
    · rw [if_neg hp]
      have := ih (len / 2) (by omega) first
      omega

/-- Main invariant of the stride loop.  If `p` is antitone on `[0, n)` (true
at `j` forces true below `j`), the window fits in `[0, n)`, everything left of
the window satisfies `p` and everything right of it (below `n`) falsifies `p`,
then the final `first` splits `[0, n)` into a prefix where `p` holds and a
suffix where it fails. -/
theorem strideLoop_split (p : Nat → Bool) (n : Nat)
    (hmono : ∀ i j, i ≤ j → j < n → p j = true → p i = true) (len : Nat) :
    ∀ first, first + len ≤ n →
      (∀ j, j < first → p j = true) →
      (∀ j, first + len ≤ j → j < n → p j = false) →
      (∀ j, j < strideLoop p first len → p j = true) ∧
      (∀ j, strideLoop p first len ≤ j → j < n → p j = false) := by
  induction' len using Nat.strong_induction_on with len ih
  intro first hn hleft hright
  rw [strideLoop]
  by_cases h0 : len = 0
  · rw [dif_pos h0]
    refine ⟨hleft, fun j hj1 hj2 => hright j (by omega) hj2⟩
  · rw [dif_neg h0]
    by_cases hp : p (first + len / 2) = true
    · rw [if_pos hp]
      apply ih (len - len / 2 - 1) (by omega) (first + len / 2 + 1) (by omega)
      · intro j hj
        rcases Nat.lt_or_ge j first with hj2 | hj2
        · exact hleft j hj2
        · exact hmono j (first + len / 2) (by omega) (by omega) hp
      · intro j hj1 hj2
        exact hright j (by omega) hj2
    · rw [if_neg hp]
      apply ih (len / 2) (by omega) first (by omega) hleft
      intro j hj1 hj2
      rcases Nat.lt_or_ge j (first + len) with hj3 | hj3
      · cases hpj : p j with
        | false => rfl
        | true => exact absurd (hmono (first + len / 2) j hj1 hj2 hpj) hp
      · exact hright j hj3 hj2

/-- Every array read the loop performs is inside `[0, n)` whenever the initial
window is (`first + len ≤ n`); in particular, no read is out of bounds and no
midpoint computation exceeds `n`. -/
theorem strideTrace_lt (p : Nat → Bool) (len : Nat) :
    ∀ first n, first + len ≤ n → ∀ m ∈ strideTrace p first len, m < n := by
  induction' len using Nat.strong_induction_on with len ih
  intro first n hn m hm
  rw [strideTrace] at hm
  by_cases h0 : len = 0
  · rw [dif_pos h0] at hm
    simp at hm
  · rw [dif_neg h0] at hm
    by_cases hp : p (first + len / 2) = true
    · rw [if_pos hp] at hm
      rcases List.mem_cons.mp hm with rfl | hm
      · omega
      · exact ih (len - len / 2 - 1) (by omega) (first + len / 2 + 1) n (by omega) m hm
    · rw [if_neg hp] at hm
      rcases List.mem_cons.mp hm with rfl | hm
      · omega
      · exact ih (len / 2) (by omega) first n (by omega) m hm

/-- The number of loop iterations (= array reads) is at most `log2 len + 1`;
the loop runs in logarithmically many steps. -/
theorem strideTrace_length_le (p : Nat → Bool) (len : Nat) :
    ∀ first, 1 ≤ len → (strideTrace p first len).length ≤ Nat.log2 len + 1 := by
  induction' len using Nat.strong_induction_on with len ih
  intro first h1
  have key : ∀ len2, len2 ≤ len / 2 → ∀ f2,
      (strideTrace p f2 len2).length + 1 ≤ Nat.log2 len + 1 := by
    intro len2 h2 f2
    by_cases hz : len2 = 0
    · subst hz
      rw [strideTrace]
      simp
    · have hlen2 : Nat.log2 len2 + 1 ≤ Nat.log2 len := by
        have h2le : Nat.log2 len2 ≤ Nat.log2 (len / 2) := by
          simp only [Nat.log2_eq_log_two]
          exact Nat.log_mono_right h2
        have hstep : Nat.log2 len = Nat.log2 (len / 2) + 1 := by
          rw [Nat.log2]
          simp only [if_pos (show 2 ≤ len by omega)]
        omega
      have := ih len2 (by omega) f2 (by omega)
      omega
  rw [strideTrace]
  rw [dif_neg (show len ≠ 0 by omega)]
  by_cases hp : p (first + len / 2) = true
  · rw [if_pos hp]
    rw [List.length_cons]
    exact key (len - len / 2 - 1) (by omega) (first + len / 2 + 1)
  · rw [if_neg hp]
    rw [List.length_cons]
    exact key (len / 2) (by omega) first

/-- Unconditional form of the step bound. -/
theorem strideTrace_length_le' (p : Nat → Bool) (first len : Nat) :
    (strideTrace p first len).length ≤ Nat.log2 (len + 1) + 1 := by
  by_cases h0 : len = 0
  · subst h0
    rw [strideTrace]
    simp
  · have h1 := strideTrace_length_le p len first (by omega)
    have h2 : Nat.log2 len ≤ Nat.log2 (len + 1) := by
      simp only [Nat.log2_eq_log_two]
      exact Nat.log_mono_right (by omega)
    omega

/-!
## Generic facts about the linear scan
-/

/-- Characterisation of `lscan`: the result is the first index `j ≥ i` with
`q j = true`, or `i + fuel` when there is none in `[i, i + fuel)`. -/
theorem lscan_split (q : Nat → Bool) (fuel : Nat) :
    ∀ i, i ≤ lscan q i fuel ∧ lscan q i fuel ≤ i + fuel ∧
      (∀ j, i ≤ j → j < lscan q i fuel → q j = false) ∧
      (lscan q i fuel < i + fuel → q (lscan q i fuel) = true) := by
  induction fuel with
  | zero =>
    intro i
    simp [lscan]
    omega
  | succ fuel ih =>
    intro i
    rw [lscan]
    by_cases hq : q i = true
    · rw [if_pos hq]
      refine ⟨le_refl i, by omega, fun j hj1 hj2 => by omega, fun _ => hq⟩
    · rw [if_neg hq]
      obtain ⟨ha, hb, hc, hd⟩ := ih (i + 1)
      refine ⟨by omega, by omega, ?_, fun h => hd (by omega)⟩
      intro j hj1 hj2
      rcases Nat.lt_or_ge j (i + 1) with hj3 | hj3
      · have : j = i := by omega
        subst this
        cases hqj : q j with
        | false => rfl
        | true => exact absurd hqj (by simpa using hq)
      · exact hc j hj3 hj2

/-!
## Bridges between list sortedness, membership and `getD`
-/

/-- `getD`-level monotonicity of a non-descending list. -/
theorem sorted_getD_mono {S : List Int} (hs : S.Sorted (· ≤ ·)) {i j : Nat}
    (hij : i ≤ j) (hj : j < S.length) : S.getD i 0 ≤ S.getD j 0 := by
  have hi : i < S.length := by omega
  rw [List.getD_eq_getElem S 0 hi, List.getD_eq_getElem S 0 hj]
  have := List.Sorted.rel_get_of_le hs (a := ⟨i, hi⟩) (b := ⟨j, hj⟩) hij
  simpa using this

/-- Membership in a list through in-range `getD` reads. -/
theorem mem_getD {S : List Int} {key : Int} :
    key ∈ S ↔ ∃ i, i < S.length ∧ S.getD i 0 = key := by
  rw [List.mem_iff_getElem]
  constructor
  · rintro ⟨i, hi, rfl⟩
    exact ⟨i, hi, (List.getD_eq_getElem S 0 hi)⟩
  · rintro ⟨i, hi, h⟩
    exact ⟨i, hi, by rw [← List.getD_eq_getElem S 0 hi, h]⟩

/-!
## Unfolding the operations on a present (non-NULL) array
-/

theorem lower_bound_index_some (S : List Int) (n : Nat) (key : Int) :
    (lower_bound_i32 (some S) n key).index =
      strideLoop (fun mid => decide (S.getD mid 0 < key)) 0 n := by
  simp [lower_bound_i32, readArr]

theorem lower_bound_status_some (S : List Int) (n : Nat) (key : Int) :
    (lower_bound_i32 (some S) n key).status = .OK_NOT_FOUND := by
  simp [lower_bound_i32]

theorem upper_bound_index_some (S : List Int) (n : Nat) (key : Int) :
    (upper_bound_i32 (some S) n key).index =
      strideLoop (fun mid => decide (S.getD mid 0 ≤ key)) 0 n := by
  simp [upper_bound_i32, readArr]

theorem upper_bound_status_some (S : List Int) (n : Nat) (key : Int) :
    (upper_bound_i32 (some S) n key).status = .OK_NOT_FOUND := by
  simp [upper_bound_i32]

/-- On a present array `binary_search_i32` returns the lower-bound index and
classifies by the equality test `lb.index < n && a[lb.index] == key`. -/
theorem binary_search_some (S : List Int) (n : Nat) (key : Int) :
    binary_search_i32 (some S) n key =
      if (lower_bound_i32 (some S) n key).index < n ∧
          S.getD (lower_bound_i32 (some S) n key).index 0 = key then
        ⟨.OK_FOUND, (lower_bound_i32 (some S) n key).index⟩
      else
        ⟨.OK_NOT_FOUND, (lower_bound_i32 (some S) n key).index⟩ := by
  rw [binary_search_i32]
  simp [lower_bound_status_some, readArr]

/-!
## Characterisations of the two bound searches on sorted input
-/

/-- The index returned by `lower_bound_i32` on a sorted array splits the array:
indices below it hold values `< key`, indices at or above it (within range)
hold values `≥ key`, and the index is at most the length. -/
theorem lower_bound_char (S : List Int) (key : Int) (hs : S.Sorted (· ≤ ·)) :
    (lower_bound_i32 (some S) S.length key).index ≤ S.length ∧
    (∀ j, j < (lower_bound_i32 (some S) S.length key).index → S.getD j 0 < key) ∧
    (∀ j, (lower_bound_i32 (some S) S.length key).index ≤ j → j < S.length →
      key ≤ S.getD j 0) := by
  rw [lower_bound_index_some]
  have hmono : ∀ i j, i ≤ j → j < S.length →
      (fun mid => decide (S.getD mid 0 < key)) j = true →
      (fun mid => decide (S.getD mid 0 < key)) i = true := by
    intro i j hij hj hpj
    simp only [decide_eq_true_eq] at hpj ⊢
    exact lt_of_le_of_lt (sorted_getD_mono hs hij hj) hpj
  have hb := strideLoop_bounds (fun mid => decide (S.getD mid 0 < key)) S.length 0
  have hsplit := strideLoop_split (fun mid => decide (S.getD mid 0 < key)) S.length
      hmono S.length 0 (by omega)
      (fun j hj => absurd hj (by omega))
      (fun j h1 h2 => absurd h1 (by omega))
  obtain ⟨hA, hB⟩ := hsplit
  refine ⟨by omega, ?_, ?_⟩
  · intro j hj
    have := hA j hj
    simpa using this
  · intro j hj1 hj2
    have := hB j hj1 hj2
    simp only [decide_eq_false_iff_not, not_lt] at this
    exact this

/-- The index returned by `upper_bound_i32` on a sorted array splits the array:
indices below it hold values `≤ key`, indices at or above it (within range)
hold values `> key`, and the index is at most the length. -/
theorem upper_bound_char (S : List Int) (key : Int) (hs : S.Sorted (· ≤ ·)) :
    (upper_bound_i32 (some S) S.length key).index ≤ S.length ∧
    (∀ j, j < (upper_bound_i32 (some S) S.length key).index → S.getD j 0 ≤ key) ∧
    (∀ j, (upper_bound_i32 (some S) S.length key).index ≤ j → j < S.length →
      key < S.getD j 0) := by
  rw [upper_bound_index_some]
  have hmono : ∀ i j, i ≤ j → j < S.length →
      (fun mid => decide (S.getD mid 0 ≤ key)) j = true →
      (fun mid => decide (S.getD mid 0 ≤ key)) i = true := by
    intro i j hij hj hpj
    simp only [decide_eq_true_eq] at hpj ⊢
    exact le_trans (sorted_getD_mono hs hij hj) hpj
  have hb := strideLoop_bounds (fun mid => decide (S.getD mid 0 ≤ key)) S.length 0
  have hsplit := strideLoop_split (fun mid => decide (S.getD mid 0 ≤ key)) S.length
      hmono S.length 0 (by omega)
      (fun j hj => absurd hj (by omega))
      (fun j h1 h2 => absurd h1 (by omega))
  obtain ⟨hA, hB⟩ := hsplit
  refine ⟨by omega, ?_, ?_⟩
  · intro j hj
    have := hA j hj
    simpa using this
  · intro j hj1 hj2
    have := hB j hj1 hj2
    simp only [decide_eq_false_iff_not, not_le] at this
    exact this

/-!
## Null-pointer and status helper lemmas
-/

theorem lower_bound_none_pos (n : Nat) (key : Int) (hn : 0 < n) :
    lower_bound_i32 none n key = ⟨.ERR_NULL_PTR, 0⟩ := by
  simp [lower_bound_i32, hn]

theorem upper_bound_none_pos (n : Nat) (key : Int) (hn : 0 < n) :
    upper_bound_i32 none n key = ⟨.ERR_NULL_PTR, 0⟩ := by
  simp [upper_bound_i32, hn]

theorem binary_search_none_pos (n : Nat) (key : Int) (hn : 0 < n) :
    binary_search_i32 none n key = ⟨.ERR_NULL_PTR, 0⟩ := by
  rw [binary_search_i32]
  simp [lower_bound_none_pos n key hn]

theorem lower_bound_none_zero (key : Int) :
    lower_bound_i32 none 0 key = ⟨.OK_NOT_FOUND, 0⟩ := by
  simp [lower_bound_i32, strideLoop]

theorem upper_bound_none_zero (key : Int) :
    upper_bound_i32 none 0 key = ⟨.OK_NOT_FOUND, 0⟩ := by
  simp [upper_bound_i32, strideLoop]

theorem binary_search_none_zero (key : Int) :
    binary_search_i32 none 0 key = ⟨.OK_NOT_FOUND, 0⟩ := by
  rw [binary_search_i32]
  simp [lower_bound_none_zero key]

theorem binary_search_index_some (S : List Int) (n : Nat) (key : Int) :
    (binary_search_i32 (some S) n key).index =
      (lower_bound_i32 (some S) n key).index := by
  rw [binary_search_some]
  split <;> rfl

theorem binary_search_found_iff_some (S : List Int) (n : Nat) (key : Int) :
    (binary_search_i32 (some S) n key).status = .OK_FOUND ↔
      ((lower_bound_i32 (some S) n key).index < n ∧
        S.getD (lower_bound_i32 (some S) n key).index 0 = key) := by
  rw [binary_search_some]
  split
  case isTrue h => simpa using h
  case isFalse h => simpa using h

theorem binary_search_status_cases_some (S : List Int) (n : Nat) (key : Int) :
    (binary_search_i32 (some S) n key).status = .OK_FOUND ∨
      (binary_search_i32 (some S) n key).status = .OK_NOT_FOUND := by
  rw [binary_search_some]
  split
  · exact Or.inl rfl
  · exact Or.inr rfl

/-- The returned index never exceeds `n`, for every input (including NULL and
unsorted arrays). -/
theorem lower_bound_index_le (a : Option (List Int)) (n : Nat) (key : Int) :
    (lower_bound_i32 a n key).index ≤ n := by
  rw [lower_bound_i32]
  split
  · simp
  · show strideLoop (fun mid => decide (readArr a mid < key)) 0 n ≤ n
    have := strideLoop_bounds (fun mid => decide (readArr a mid < key)) n 0
    omega

/-- The returned index never exceeds `n`, for every input (including NULL and
unsorted arrays). -/
theorem upper_bound_index_le (a : Option (List Int)) (n : Nat) (key : Int) :
    (upper_bound_i32 a n key).index ≤ n := by
  rw [upper_bound_i32]
  split
  · simp
  · show strideLoop (fun mid => decide (readArr a mid ≤ key)) 0 n ≤ n
    have := strideLoop_bounds (fun mid => decide (readArr a mid ≤ key)) n 0
    omega

/-!
## The claims
-/

/-- C1: for every non-descending sequence `S` of length `n` and every key,
`lower_bound_i32 (some S) n key` returns an index with `0 ≤ index ≤ n`; if
`index < n` then `S[index] ≥ key`; if `index > 0` then `S[index-1] < key`;
i.e. it is the smallest index whose element is `≥ key` (every element strictly
below the index is `< key`), or `n` if none exists. -/
theorem C1_lower_bound_postconditions (S : List Int) (key : Int)
    (hs : S.Sorted (· ≤ ·)) :
    (lower_bound_i32 (some S) S.length key).index ≤ S.length ∧
    ((lower_bound_i32 (some S) S.length key).index < S.length →
      key ≤ S.getD (lower_bound_i32 (some S) S.length key).index 0) ∧
    (0 < (lower_bound_i32 (some S) S.length key).index →
      S.getD ((lower_bound_i32 (some S) S.length key).index - 1) 0 < key) ∧
    (∀ j, j < (lower_bound_i32 (some S) S.length key).index → S.getD j 0 < key) := by
  obtain ⟨h1, h2, h3⟩ := lower_bound_char S key hs
  exact ⟨h1, fun h => h3 _ (le_refl _) h, fun h => h2 _ (by omega), h2⟩

theorem C1_witness :
    List.Sorted (· ≤ ·) ([1, 3, 3, 7] : List Int) ∧
    (lower_bound_i32 (some [1, 3, 3, 7]) ([1, 3, 3, 7] : List Int).length 3).index ≤
      ([1, 3, 3, 7] : List Int).length :=
  ⟨by decide, (C1_lower_bound_postconditions [1, 3, 3, 7] 3 (by decide)).1⟩

/-- C2: for every non-descending sequence `S` of length `n` and every key,
`upper_bound_i32 (some S) n key` returns an index with `0 ≤ index ≤ n`; if
`index < n` then `S[index] > key`; if `index > 0` then `S[index-1] ≤ key`;
i.e. it is the first index whose element is strictly greater than `key`
(every element strictly below the index is `≤ key`), or `n` if none exists. -/
theorem C2_upper_bound_postconditions (S : List Int) (key : Int)
    (hs : S.Sorted (· ≤ ·)) :
    (upper_bound_i32 (some S) S.length key).index ≤ S.length ∧
    ((upper_bound_i32 (some S) S.length key).index < S.length →
      key < S.getD (upper_bound_i32 (some S) S.length key).index 0) ∧
    (0 < (upper_bound_i32 (some S) S.length key).index →
      S.getD ((upper_bound_i32 (some S) S.length key).index - 1) 0 ≤ key) ∧
    (∀ j, j < (upper_bound_i32 (some S) S.length key).index → S.getD j 0 ≤ key) := by
  obtain ⟨h1, h2, h3⟩ := upper_bound_char S key hs
  exact ⟨h1, fun h => h3 _ (le_refl _) h, fun h => h2 _ (by omega), h2⟩

theorem C2_witness :
    List.Sorted (· ≤ ·) ([1, 3, 3, 7] : List Int) ∧
    (upper_bound_i32 (some [1, 3, 3, 7]) ([1, 3, 3, 7] : List Int).length 3).index ≤
      ([1, 3, 3, 7] : List Int).length :=
  ⟨by decide, (C2_upper_bound_postconditions [1, 3, 3, 7] 3 (by decide)).1⟩

/-- C3: for every non-descending sequence `S` of length `n` and every key,
`binary_search_i32` returns `OK_FOUND` iff the key occurs in `S`, always with
the same index as `lower_bound_i32`; on a miss the status is `OK_NOT_FOUND`;
on a hit the index is the leftmost occurrence of the key. -/
theorem C3_binary_search_found_iff (S : List Int) (key : Int)
    (hs : S.Sorted (· ≤ ·)) :
    ((binary_search_i32 (some S) S.length key).status = .OK_FOUND ↔ key ∈ S) ∧
    (binary_search_i32 (some S) S.length key).index =
      (lower_bound_i32 (some S) S.length key).index ∧
    (key ∉ S → (binary_search_i32 (some S) S.length key).status = .OK_NOT_FOUND) ∧
    (key ∈ S →
      S.getD (binary_search_i32 (some S) S.length key).index 0 = key ∧
      ∀ j, j < (binary_search_i32 (some S) S.length key).index → S.getD j 0 ≠ key) := by
  obtain ⟨h1, h2, h3⟩ := lower_bound_char S key hs
  have hfound : ((lower_bound_i32 (some S) S.length key).index < S.length ∧
      S.getD (lower_bound_i32 (some S) S.length key).index 0 = key) ↔ key ∈ S := by
    constructor
    · rintro ⟨hlt, heq⟩
      exact mem_getD.mpr ⟨_, hlt, heq⟩
    · intro hmem
      obtain ⟨i, hi, hik⟩ := mem_getD.mp hmem
      have hri : (lower_bound_i32 (some S) S.length key).index ≤ i := by
        by_contra hcon
        push_neg at hcon
        have := h2 i hcon
        omega
      have hrlt : (lower_bound_i32 (some S) S.length key).index < S.length := by omega
      have hge := h3 _ (le_refl _) hrlt
      have hle : S.getD (lower_bound_i32 (some S) S.length key).index 0 ≤ key := by
        calc S.getD (lower_bound_i32 (some S) S.length key).index 0
            ≤ S.getD i 0 := sorted_getD_mono hs hri hi
          _ = key := hik
      exact ⟨hrlt, by omega⟩
  have hiff := binary_search_found_iff_some S S.length key
  have hidx := binary_search_index_some S S.length key
  refine ⟨hiff.trans hfound, hidx, ?_, ?_⟩
  · intro hmem
    rcases binary_search_status_cases_some S S.length key with hst | hst
    · exact absurd ((hiff.trans hfound).mp hst) hmem
    · exact hst
  · intro hmem
    obtain ⟨hlt, heq⟩ := hfound.mpr hmem
    rw [hidx]
    exact ⟨heq, fun j hj => ne_of_lt (h2 j hj)⟩

theorem C3_witness :
    List.Sorted (· ≤ ·) ([1, 3, 3, 7] : List Int) ∧
    ((binary_search_i32 (some [1, 3, 3, 7]) ([1, 3, 3, 7] : List Int).length 3).status =
        .OK_FOUND ↔ (3 : Int) ∈ ([1, 3, 3, 7] : List Int)) :=
  ⟨by decide, (C3_binary_search_found_iff [1, 3, 3, 7] 3 (by decide)).1⟩

/-- C4: for every non-descending sequence `S` of length `n` and every key, the
lower-bound index is at most the upper-bound index, and the half-open range
between them consists exactly of the indices holding the key. -/
theorem C4_equal_range (S : List Int) (key : Int) (hs : S.Sorted (· ≤ ·)) :
    (lower_bound_i32 (some S) S.length key).index ≤
      (upper_bound_i32 (some S) S.length key).index ∧
    ∀ i, i < S.length →
      ((lower_bound_i32 (some S) S.length key).index ≤ i ∧
        i < (upper_bound_i32 (some S) S.length key).index ↔ S.getD i 0 = key) := by
  obtain ⟨hl1, hl2, hl3⟩ := lower_bound_char S key hs
  obtain ⟨hu1, hu2, hu3⟩ := upper_bound_char S key hs
  constructor
  · by_contra hlt
    push_neg at hlt
    have hubn : (upper_bound_i32 (some S) S.length key).index < S.length := by omega
    have h1 := hu3 _ (le_refl _) hubn
    have h2 := hl2 _ hlt
    omega
  · intro i hi
    constructor
    · rintro ⟨hi1, hi2⟩
      have ha := hl3 i hi1 hi
      have hb := hu2 i hi2
      omega
    · intro hik
      constructor
      · by_contra h
        push_neg at h
        have := hl2 i h
        omega
      · by_contra h
        push_neg at h
        have := hu3 i h hi
        omega

theorem C4_witness :
    List.Sorted (· ≤ ·) ([1, 3, 3, 7] : List Int) ∧
    (lower_bound_i32 (some [1, 3, 3, 7]) ([1, 3, 3, 7] : List Int).length 3).index ≤
      (upper_bound_i32 (some [1, 3, 3, 7]) ([1, 3, 3, 7] : List Int).length 3).index :=
  ⟨by decide, (C4_equal_range [1, 3, 3, 7] 3 (by decide)).1⟩

/-- C5: an error status is returned iff the array reference is NULL while
`n > 0`, in which case the status is `ERR_NULL_PTR` and the index is `0`, with
`binary_search_i32` propagating the error unchanged; a NULL array with `n = 0`
is not an error and yields `{OK_NOT_FOUND, 0}`; and `ERR_BAD_LEN` is never
produced. -/
theorem C5_error_conditions (a : Option (List Int)) (n : Nat) (key : Int) :
    ((lower_bound_i32 a n key).status = .ERR_NULL_PTR ↔ a = none ∧ 0 < n) ∧
    ((upper_bound_i32 a n key).status = .ERR_NULL_PTR ↔ a = none ∧ 0 < n) ∧
    ((binary_search_i32 a n key).status = .ERR_NULL_PTR ↔ a = none ∧ 0 < n) ∧
    (a = none ∧ 0 < n →
      lower_bound_i32 a n key = ⟨.ERR_NULL_PTR, 0⟩ ∧
      upper_bound_i32 a n key = ⟨.ERR_NULL_PTR, 0⟩ ∧
      binary_search_i32 a n key = lower_bound_i32 a n key) ∧
    (lower_bound_i32 none 0 key = ⟨.OK_NOT_FOUND, 0⟩ ∧
      upper_bound_i32 none 0 key = ⟨.OK_NOT_FOUND, 0⟩ ∧
      binary_search_i32 none 0 key = ⟨.OK_NOT_FOUND, 0⟩) ∧
    ((lower_bound_i32 a n key).status ≠ .ERR_BAD_LEN ∧
      (upper_bound_i32 a n key).status ≠ .ERR_BAD_LEN ∧
      (binary_search_i32 a n key).status ≠ .ERR_BAD_LEN) := by
  rcases a with _ | S
  · rcases Nat.eq_zero_or_pos n with rfl | hn
    · simp [lower_bound_none_zero, upper_bound_none_zero, binary_search_none_zero]
    · simp [lower_bound_none_pos n key hn, upper_bound_none_pos n key hn,
        binary_search_none_pos n key hn, lower_bound_none_zero,
        upper_bound_none_zero, binary_search_none_zero, hn]
  · have h1 := lower_bound_status_some S n key
    have h2 := upper_bound_status_some S n key
    rcases binary_search_status_cases_some S n key with h3 | h3 <;>
      simp [h1, h2, h3, lower_bound_none_zero, upper_bound_none_zero,
        binary_search_none_zero]

theorem C5_witness :
    lower_bound_i32 none 3 7 = ⟨.ERR_NULL_PTR, 0⟩ ∧
    binary_search_i32 none 3 7 = lower_bound_i32 none 3 7 :=
  ⟨((C5_error_conditions none 3 7).2.2.2.1 ⟨rfl, by omega⟩).1,
    ((C5_error_conditions none 3 7).2.2.2.1 ⟨rfl, by omega⟩).2.2⟩

/-!
## Characterisations of the linear-scan reference functions
-/

theorem linear_lower_bound_char (S : List Int) (n : Nat) (key : Int) :
    linear_lower_bound S n key ≤ n ∧
    (∀ j, j < linear_lower_bound S n key → S.getD j 0 < key) ∧
    (linear_lower_bound S n key < n → key ≤ S.getD (linear_lower_bound S n key) 0) := by
  obtain ⟨ha, hb, hc, hd⟩ := lscan_split (fun i => decide (key ≤ S.getD i 0)) n 0
  rw [linear_lower_bound]
  refine ⟨by omega, ?_, ?_⟩
  · intro j hj
    have := hc j (by omega) hj
    simp only [decide_eq_false_iff_not, not_le] at this
    exact this
  · intro h
    have := hd (by omega)
    simpa using this

theorem linear_upper_bound_char (S : List Int) (n : Nat) (key : Int) :
    linear_upper_bound S n key ≤ n ∧
    (∀ j, j < linear_upper_bound S n key → S.getD j 0 ≤ key) ∧
    (linear_upper_bound S n key < n → key < S.getD (linear_upper_bound S n key) 0) := by
  obtain ⟨ha, hb, hc, hd⟩ := lscan_split (fun i => decide (key < S.getD i 0)) n 0
  rw [linear_upper_bound]
  refine ⟨by omega, ?_, ?_⟩
  · intro j hj
    have := hc j (by omega) hj
    simp only [decide_eq_false_iff_not, not_lt] at this
    exact this
  · intro h
    have := hd (by omega)
    simpa using this

/-- C6: on every sorted array, the indices returned by `lower_bound_i32` and
`upper_bound_i32` equal the linear-scan reference results, and
`binary_search_i32`'s index and found/not-found classification match the
classification derived from the linear-scan lower bound. -/
theorem C6_matches_linear_scan (S : List Int) (key : Int) (hs : S.Sorted (· ≤ ·)) :
    (lower_bound_i32 (some S) S.length key).index = linear_lower_bound S S.length key ∧
    (upper_bound_i32 (some S) S.length key).index = linear_upper_bound S S.length key ∧
    (binary_search_i32 (some S) S.length key).index = linear_lower_bound S S.length key ∧
    ((binary_search_i32 (some S) S.length key).status = .OK_FOUND ↔
      (linear_lower_bound S S.length key < S.length ∧
        S.getD (linear_lower_bound S S.length key) 0 = key)) := by
  obtain ⟨hl1, hl2, hl3⟩ := lower_bound_char S key hs
  obtain ⟨hu1, hu2, hu3⟩ := upper_bound_char S key hs
  obtain ⟨hL1, hL2, hL3⟩ := linear_lower_bound_char S S.length key
  obtain ⟨hU1, hU2, hU3⟩ := linear_upper_bound_char S S.length key
  have hlb : (lower_bound_i32 (some S) S.length key).index =
      linear_lower_bound S S.length key := by
    rcases Nat.lt_trichotomy (lower_bound_i32 (some S) S.length key).index
        (linear_lower_bound S S.length key) with hlt | heq | hgt
    · have h1 := hl3 _ (le_refl _) (by omega)
      have h2 := hL2 _ hlt
      omega
    · exact heq
    · have h1 := hl2 _ hgt
      have h2 := hL3 (by omega)
      omega
  have hub : (upper_bound_i32 (some S) S.length key).index =
      linear_upper_bound S S.length key := by
    rcases Nat.lt_trichotomy (upper_bound_i32 (some S) S.length key).index
        (linear_upper_bound S S.length key) with hlt | heq | hgt
    · have h1 := hu3 _ (le_refl _) (by omega)
      have h2 := hU2 _ hlt
      omega
    · exact heq
    · have h1 := hu2 _ hgt
      have h2 := hU3 (by omega)
      omega
  refine ⟨hlb, hub, ?_, ?_⟩
  · rw [binary_search_index_some, hlb]
  · rw [binary_search_found_iff_some, hlb]

theorem C6_witness :
    List.Sorted (· ≤ ·) ([1, 3, 3, 7] : List Int) ∧
    (lower_bound_i32 (some [1, 3, 3, 7]) ([1, 3, 3, 7] : List Int).length 3).index =
      linear_lower_bound [1, 3, 3, 7] ([1, 3, 3, 7] : List Int).length 3 :=
  ⟨by decide, (C6_matches_linear_scan [1, 3, 3, 7] 3 (by decide)).1⟩

/-- C7: for every input — NULL or not, sorted or not — both bound searches
return an index in `[0, n]`, every array read `a[mid]` performed by the loop
has `mid < n` (no out-of-bounds access), and since every computed midpoint
`mid = first + half` is below `n`, the midpoint arithmetic cannot overflow a
`size_t` holding `n`. -/
theorem C7_memory_safety (a : Option (List Int)) (n : Nat) (key : Int) :
    (lower_bound_i32 a n key).index ≤ n ∧
    (upper_bound_i32 a n key).index ≤ n ∧
    (∀ m ∈ lower_bound_accesses a n key, m < n) ∧
    (∀ m ∈ upper_bound_accesses a n key, m < n) ∧
    (n ≤ 2 ^ 64 - 1 → ∀ m ∈ lower_bound_accesses a n key, m < 2 ^ 64 - 1) ∧
    (n ≤ 2 ^ 64 - 1 → ∀ m ∈ upper_bound_accesses a n key, m < 2 ^ 64 - 1) := by
  have hacc1 : ∀ m ∈ lower_bound_accesses a n key, m < n := by
    rw [lower_bound_accesses]
    split
    · intro m hm
      simp at hm
    · exact strideTrace_lt _ n 0 n (by omega)
  have hacc2 : ∀ m ∈ upper_bound_accesses a n key, m < n := by
    rw [upper_bound_accesses]
    split
    · intro m hm
      simp at hm
    · exact strideTrace_lt _ n 0 n (by omega)
  refine ⟨lower_bound_index_le a n key, upper_bound_index_le a n key,
    hacc1, hacc2, ?_, ?_⟩
  · intro hn m hm
    have := hacc1 m hm
    omega
  · intro hn m hm
    have := hacc2 m hm
    omega

theorem C7_witness :
    (lower_bound_i32 (some [3, 1, 2]) 3 2).index ≤ 3 ∧
    (3 ≤ 2 ^ 64 - 1 ∧ ∀ m ∈ lower_bound_accesses (some [3, 1, 2]) 3 2, m < 2 ^ 64 - 1) :=
  ⟨(C7_memory_safety (some [3, 1, 2]) 3 2).1,
    by norm_num,
    (C7_memory_safety (some [3, 1, 2]) 3 2).2.2.2.2.1 (by norm_num)⟩

/-- C8: every operation terminates: the loop body strictly decreases `len` in
both branches, the loop exits as soon as `len = 0` returning `first`, and the
number of iterations (= recorded array reads) is at most `log2 n + 1`, i.e.
`O(log n)`. -/
theorem C8_logarithmic_termination (a : Option (List Int)) (n : Nat) (key : Int) :
    (lower_bound_accesses a n key).length ≤ Nat.log2 (n + 1) + 1 ∧
    (upper_bound_accesses a n key).length ≤ Nat.log2 (n + 1) + 1 ∧
    (∀ p first, strideLoop p first 0 = first) ∧
    (∀ len : Nat, len ≠ 0 → len / 2 < len ∧ len - len / 2 - 1 < len) := by
  refine ⟨?_, ?_, ?_, ?_⟩
  · rw [lower_bound_accesses]
    split
    · simp
    · exact strideTrace_length_le' _ 0 n
  · rw [upper_bound_accesses]
    split
    · simp
    · exact strideTrace_length_le' _ 0 n
  · intro p first
    rw [strideLoop]
    simp
  · intro len h
    omega

theorem C8_witness :
    (lower_bound_accesses (some [1, 3, 3, 7]) 4 3).length ≤ Nat.log2 5 + 1 :=
  (C8_logarithmic_termination (some [1, 3, 3, 7]) 4 3).1

/-- C9: on every non-error input (array present, or `n = 0`) both bound
searches return status `OK_NOT_FOUND`, never `OK_FOUND`, even when the key
occurs; in fact neither ever returns `OK_FOUND` on any input, while
`binary_search_i32` does produce `OK_FOUND`. -/
theorem C9_bounds_never_report_found (a : Option (List Int)) (n : Nat) (key : Int) :
    ((a ≠ none ∨ n = 0) →
      (lower_bound_i32 a n key).status = .OK_NOT_FOUND ∧
      (upper_bound_i32 a n key).status = .OK_NOT_FOUND) ∧
    (lower_bound_i32 a n key).status ≠ .OK_FOUND ∧
    (upper_bound_i32 a n key).status ≠ .OK_FOUND ∧
    binary_search_i32 (some [10]) 1 10 = ⟨.OK_FOUND, 0⟩ := by
  refine ⟨?_, ?_, ?_, ?_⟩
  · intro h
    constructor
    · rw [lower_bound_i32]
      split
      case isTrue hc =>
        rcases h with h | h
        · exact absurd hc.1 h
        · exact absurd hc.2 (by omega)
      case isFalse hc => rfl
    · rw [upper_bound_i32]
      split
      case isTrue hc =>
        rcases h with h | h
        · exact absurd hc.1 h
        · exact absurd hc.2 (by omega)
      case isFalse hc => rfl
  · rw [lower_bound_i32]
    split <;> simp
  · rw [upper_bound_i32]
    split <;> simp
  · simp [binary_search_i32, lower_bound_i32, strideLoop, readArr]

theorem C9_witness :
    (lower_bound_i32 (some [10]) 1 10).status = .OK_NOT_FOUND :=
  ((C9_bounds_never_report_found (some [10]) 1 10).1 (Or.inl (by simp))).1

/-- C10: on every sorted array the returned indices of both bound searches are
monotone non-decreasing in the key. -/
theorem C10_index_monotone_in_key (S : List Int) (k1 k2 : Int)
    (hs : S.Sorted (· ≤ ·)) (hk : k1 ≤ k2) :
    (lower_bound_i32 (some S) S.length k1).index ≤
      (lower_bound_i32 (some S) S.length k2).index ∧
    (upper_bound_i32 (some S) S.length k1).index ≤
      (upper_bound_i32 (some S) S.length k2).index := by
  obtain ⟨ha1, ha2, ha3⟩ := lower_bound_char S k1 hs
  obtain ⟨hb1, hb2, hb3⟩ := lower_bound_char S k2 hs
  obtain ⟨hc1, hc2, hc3⟩ := upper_bound_char S k1 hs
  obtain ⟨hd1, hd2, hd3⟩ := upper_bound_char S k2 hs
  constructor
  · by_contra h
    push_neg at h
    have h1 := ha2 _ h
    have h2 := hb3 _ (le_refl _) (by omega)
    omega
  · by_contra h
    push_neg at h
    have h1 := hc2 _ h
    have h2 := hd3 _ (le_refl _) (by omega)
    omega

theorem C10_witness :
    List.Sorted (· ≤ ·) ([1, 3, 3, 7] : List Int) ∧ (2 : Int) ≤ 5 ∧
    (lower_bound_i32 (some [1, 3, 3, 7]) ([1, 3, 3, 7] : List Int).length 2).index ≤
      (lower_bound_i32 (some [1, 3, 3, 7]) ([1, 3, 3, 7] : List Int).length 5).index :=
  ⟨by decide, by decide,
    (C10_index_monotone_in_key [1, 3, 3, 7] 2 5 (by decide) (by decide)).1⟩

end SafeSearch
